import Mathlib

/-!
Shallow embedding of the dig-propagation-server upload pipeline
(`src/controllers/merkleTreeController.ts`, `src/utils/nonce.ts`) and proofs
about the claims of the specification.

Times are milliseconds since the epoch, modelled as `Nat`.  Byte values are
`Nat`s below 256.  In-memory key/value caches are modelled as functions from
`String` keys to optional entries, and random bytes are passed in explicitly.
-/

namespace Dig

/-! ## Hex strings -/

/-- One lowercase hex digit, as produced by Node's `Buffer.toString("hex")`. -/
def hexDigit (n : Nat) : Char :=
  "0123456789abcdef".data.getD n 'x'

/-- Hex encoding of a byte sequence: two lowercase hex digits per byte. -/
def bytesToHex (bs : List Nat) : String :=
  ⟨bs.flatMap (fun b => [hexDigit (b / 16 % 16), hexDigit (b % 16)])⟩

/-- Whether a character is a lowercase hex digit. -/
def isHexChar (c : Char) : Bool :=
  "0123456789abcdef".data.contains c

/-- The all-zero 64-hex digest used as the root of an empty tree. -/
def zeroRoot : String :=
  "0000000000000000000000000000000000000000000000000000000000000000"

/-! ## Nonce cache (`src/utils/nonce.ts`)

The source keeps a module-level object `nonceStore` mapping a key
(`"<storeId>_<sessionId>_<filename>"`) to `{ nonce, expires }`. -/

structure NonceEntry where
  nonce : String
  expires : Nat
deriving DecidableEq, Repr

/-- The in-memory `nonceStore` object. -/
def NonceStore := String → Option NonceEntry

/-- The empty store the process starts with. -/
def emptyNonceStore : NonceStore := fun _ => none

/-- `expires = Date.now() + 5 * 60 * 1000` in `generateNonce`. -/
def nonceTTLms : Nat := 5 * 60 * 1000

/-- `generateNonce(userId)`: hex-encode the 16 random bytes, store the entry
with expiry `now + 5 minutes`, return the nonce.  The random bytes drawn by
`crypto.randomBytes(16)` are an explicit argument. -/
def generateNonce (st : NonceStore) (userId : String) (randBytes : List Nat)
    (now : Nat) : String × NonceStore :=
  let nonce := bytesToHex randBytes
  (nonce, fun k => if k = userId then some ⟨nonce, now + nonceTTLms⟩ else st k)

/-- `validateNonce(userId, providedNonce)`: true iff an unexpired entry exists
and matches; on success the entry is deleted. -/
def validateNonce (st : NonceStore) (userId providedNonce : String)
    (now : Nat) : Bool × NonceStore :=
  match st userId with
  | none => (false, st)
  | some e =>
    if providedNonce = e.nonce ∧ now < e.expires then
      (true, fun k => if k = userId then none else st k)
    else
      (false, st)

/-! ### Operation traces over the nonce store

Used to state the process-lifetime single-use property (claim C7). -/

/-- One call into the nonce module. -/
inductive NonceOp where
  | issue (key hexNonce : String) (now : Nat)
  | validate (key cand : String) (now : Nat)

/-- State transition of a single operation. -/
def applyNonceOp (st : NonceStore) : NonceOp → NonceStore
  | .issue key hexNonce now =>
      fun k => if k = key then some ⟨hexNonce, now + nonceTTLms⟩ else st k
  | .validate key cand now => (validateNonce st key cand now).2

/-- Whether the operation is a `validateNonce key n` call returning `true`. -/
def isTrueValidate (st : NonceStore) (key n : String) : NonceOp → Bool
  | .validate k c now => k == key && c == n && (validateNonce st k c now).1
  | .issue _ _ _ => false

/-- Number of validations of `(key, n)` that return true along a trace. -/
def countTrueValidates (st : NonceStore) (key n : String) : List NonceOp → Nat
  | [] => 0
  | op :: rest =>
    (if isTrueValidate st key n op then 1 else 0)
      + countTrueValidates (applyNonceOp st op) key n rest

/-- Number of issuance events that store exactly the nonce `n` for `key`. -/
def countIssues (key n : String) : List NonceOp → Nat
  | [] => 0
  | op :: rest =>
    (match op with
     | .issue k h _ => if k = key ∧ h = n then 1 else 0
     | .validate _ _ _ => 0)
      + countIssues key n rest

/-- 1 when the store currently holds nonce `n` for `key`, else 0. -/
def holdsNonce (st : NonceStore) (key n : String) : Nat :=
  match st key with
  | some e => if e.nonce = n then 1 else 0
  | none => 0

/-! ## String predicates used by the controller

`filename.includes("data/")` in `uploadFile` is JavaScript substring search;
`startsWith` is what the spec claims.  Both are embedded structurally over the
character lists. -/

/-- `pat` occurs at the start of `s` (character-list prefix test). -/
def leadsWith : List Char → List Char → Bool
  | [], _ => true
  | _ :: _, [] => false
  | p :: ps, c :: cs => p = c && leadsWith ps cs

/-- JavaScript `s.includes(pat)`: `pat` occurs somewhere in `s`. -/
def containsSub : List Char → List Char → Bool
  | s, pat =>
    leadsWith pat s ||
      match s with
      | [] => false
      | _ :: t => containsSub t pat

/-- `s.includes(pat)` on strings. -/
def strIncludes (s pat : String) : Bool := containsSub s.data pat.data

/-- `s.startsWith(pat)` on strings. -/
def strBeginsWith (s pat : String) : Bool := leadsWith pat.data s.data

/-! ## Owner-permission cache (`merkleTreeController.ts` lines 29, 41, 484–497)

The controller creates `new NodeCache({ stdTTL: ownerCacheTTL })` where
`ownerCacheTTL = 3 * 60 * 1000`.  `node-cache`'s documented contract takes
`stdTTL` in *seconds* and keeps an entry until `now + stdTTL * 1000`
milliseconds; the model below follows that contract, so the value the source
passes makes entries live `180000` seconds. -/

/-- The `ownerCacheTTL` constant of the source: `3 * 60 * 1000`.  The source
comment calls it "3 minutes", i.e. a count of milliseconds, but it is passed
to `node-cache` as `stdTTL`, which is a count of seconds. -/
def ownerCacheTTL : Nat := 3 * 60 * 1000

structure OwnerEntry where
  value : Bool
  /-- Millisecond timestamp at which the entry lapses. -/
  expiresAt : Nat
deriving DecidableEq, Repr

/-- The `ownerCache` NodeCache instance: key `"<publicKey>_<storeId>"`. -/
def OwnerCache := String → Option OwnerEntry

/-- The empty owner cache. -/
def emptyOwnerCache : OwnerCache := fun _ => none

/-- Modelled from the node-cache library contract: `set` under a standard ttl
of `stdTTL` seconds stores the value until `now + stdTTL * 1000`
milliseconds. -/
def nodeCacheSet (c : OwnerCache) (key : String) (v : Bool) (stdTTL now : Nat) :
    OwnerCache :=
  fun k => if k = key then some ⟨v, now + stdTTL * 1000⟩ else c k

/-- Modelled from the node-cache library contract: `get` returns the stored
value while the entry has not lapsed, else `undefined`. -/
def nodeCacheGet (c : OwnerCache) (key : String) (now : Nat) : Option Bool :=
  match c key with
  | some e => if now < e.expiresAt then some e.value else none
  | none => none

/-- Result of the owner check in `uploadFile` (lines 484–497). -/
structure OwnerCheckOut where
  allowed : Bool
  cache : OwnerCache
  calledExternal : Bool

/-- The owner check of `uploadFile`: consult `ownerCache.get`; on miss call
the external `dataStore.hasMetaWritePermissions` (its answer is the argument
`externalAnswer`) and `ownerCache.set` the boolean under the source's
`ownerCacheTTL` as the ttl. -/
def isOwnerCheck (c : OwnerCache) (publicKey storeId : String)
    (externalAnswer : Bool) (now : Nat) : OwnerCheckOut :=
  let cacheKey := publicKey ++ "_" ++ storeId
  match nodeCacheGet c cacheKey now with
  | some v => ⟨v, c, false⟩
  | none =>
    ⟨externalAnswer, nodeCacheSet c cacheKey externalAnswer ownerCacheTTL now,
      true⟩

/-! ## PUT `/upload/{storeId}/{sessionId}/{filename}`: the ordered checks
(`uploadFile`, lines 446–497) -/

/-- The three headers read by `uploadFile`; `none` models an absent header. -/
structure PutHeaders where
  keyOwnershipSig : Option String
  publicKey : Option String
  nonce : Option String

/-- JavaScript falsiness of `req.headers[...] as string`: absent or empty. -/
def hdrFalsy : Option String → Bool
  | none => true
  | some s => s.isEmpty

/-- The value a present header carries (`""` when absent, never reached when
the falsiness check passed). -/
def hdrVal : Option String → String
  | none => ""
  | some s => s

/-- Everything the check phase of `uploadFile` reads. `verifySig` stands for
the external `Wallet.verifyKeyOwnershipSignature(nonce, sig, publicKey)`;
`sessions` is the set of keys of `sessionCache`; `externalOwner` is the answer
`dataStore.hasMetaWritePermissions` would give. -/
structure PutCtx where
  storeId : String
  sessionId : String
  filename : String
  headers : PutHeaders
  nonces : NonceStore
  verifySig : String → String → String → Bool
  sessions : List String
  ownerCache : OwnerCache
  externalOwner : Bool
  now : Nat

/-- The ordered guard sequence of `uploadFile` before any byte is streamed.
`Except.error s` is the HTTP status of the thrown `HttpError`. -/
def uploadChecks (ctx : PutCtx) : Except Nat Unit :=
  if hdrFalsy ctx.headers.keyOwnershipSig || hdrFalsy ctx.headers.publicKey
      || hdrFalsy ctx.headers.nonce then
    .error 400
  else
    let nonceKey := ctx.storeId ++ "_" ++ ctx.sessionId ++ "_" ++ ctx.filename
    if !(validateNonce ctx.nonces nonceKey (hdrVal ctx.headers.nonce)
        ctx.now).1 then
      .error 401
    else if !ctx.verifySig (hdrVal ctx.headers.nonce)
        (hdrVal ctx.headers.keyOwnershipSig)
        (hdrVal ctx.headers.publicKey) then
      .error 401
    else if !ctx.sessions.contains ctx.sessionId then
      .error 404
    else if !(isOwnerCheck ctx.ownerCache (hdrVal ctx.headers.publicKey)
        ctx.storeId ctx.externalOwner ctx.now).allowed then
      .error 403
    else
      .ok ()

/-! ## Root-commitment validation (`validateDataFile`, lines 138–233)

The pure core, after the session / file-existence preconditions: the parsed
`.dat` payload is checked against the `rootHash` taken from the file name and
against the external root history.  `computeRoot` stands for the external
`DataIntegrityTree.getRootOfForeignTree`; `hist` is the first
`getRootHistory()` answer and `histBusted` the answer of the cache-busting
`getRootHistory(true)` retry. -/

/-- A parsed `.dat` payload; `root = ""` models a missing or empty `root`
field (both are falsy in `!parsedData.root`). -/
structure DatPayload where
  root : String
  leaves : List String

/-- `validateDataFile`'s decision: first component is the outcome (the error
value is the HTTP status), second component is whether the cache-busting
`getRootHistory(true)` re-fetch was performed. -/
def validateDat (computeRoot : List String → String)
    (hist histBusted : List String) (payload : DatPayload)
    (rootHash : String) : Except Nat Unit × Bool :=
  if payload.root = "" then (.error 400, false)
  else if payload.root ≠ rootHash then (.error 400, false)
  else if payload.leaves.length > 0 then
    if computeRoot payload.leaves ≠ rootHash then (.error 400, false)
    else if hist.contains rootHash then (.ok (), false)
    else if histBusted.contains rootHash then (.ok (), true)
    else (.error 400, true)
  else
    if payload.root ≠ zeroRoot then (.error 400, false)
    else (.ok (), false)

/-! ## Per-file Merkle integrity and the post-stream phase of `uploadFile`
(lines 85–127 and 504–602) -/

/-- One entry of the `.dat` `files` map. -/
structure FileEntry where
  hash : String
  sha256 : String
deriving DecidableEq, Repr

/-- `dataPath.replace("data", "")`: JavaScript replaces only the first
occurrence. -/
def replaceFirst : List Char → List Char → List Char
  | [], _ => []
  | c :: cs, pat =>
    if leadsWith pat (c :: cs) then (c :: cs).drop pat.length
    else c :: replaceFirst cs pat

/-- `dataPath.replace("data", "").replace(/\//g, "")` of
`merkleIntegrityCheck`. -/
def expectedShaOfPath (dataPath : String) : String :=
  ⟨(replaceFirst dataPath.data "data".data).filter (fun c => c ≠ '/')⟩

/-- `merkleIntegrityCheck(treePath, tmpDir, dataPath, roothash,
verifiedSha256)`: `files` is the parsed tree's `files` map as an association
list, `foreignValid` the answer of the external
`DataIntegrityTree.validateKeyIntegrityWithForeignTree`.  `Except.error`
models a thrown `Error`. -/
def merkleIntegrityCheck (files : List (String × FileEntry))
    (dataPath verifiedSha256 : String) (foreignValid : Bool) :
    Except String Bool :=
  let expectedSha256 := expectedShaOfPath dataPath
  match files.find? (fun kv => kv.2.sha256 = expectedSha256) with
  | none => .error ("No matching file found with sha256: " ++ expectedSha256)
  | some _ =>
    if verifiedSha256 ≠ expectedSha256 then
      .error "Verified sha256 does not match expected sha256"
    else
      .ok foreignValid

/-- The post-stream phase of `uploadFile` for one file, as `(HTTP status,
session destroyed?)`.  Every error thrown inside the `bb.on("file")` async
handler is caught and re-emitted as a Busboy `error`, which the
`bb.on("error")` listener answers with status 500; only the
`merkleIntegrityCheck`-returned-false branch calls `cleanupSession` first.
On success the `finish` listener answers 200. -/
def postStreamResult (filename : String) (datPresent : Bool)
    (integrity : Except String Bool) : Nat × Bool :=
  if !datPresent then (500, false)
  else if strIncludes filename "data/" then
    match integrity with
    | .ok true => (200, false)
    | .ok false => (500, true)
    | .error _ => (500, false)
  else (200, false)

/-! ## Stored bytes of a PUT (lines 528–549)

The streamed body goes through the sha-256 `HashingStream` and then, exactly
when `filename.includes("data/")`, through `zlib.createGzip()`.  The stored
content is represented symbolically: either the gzip compression of the body
or the body verbatim. -/

/-- Content written to `session.tmpDir/<filename>`. -/
inductive Stored where
  | gzipped (body : List Nat)
  | verbatim (body : List Nat)
deriving DecidableEq, Repr

/-- Which bytes `uploadFile` writes for a given target path and body. -/
def storedFile (filename : String) (body : List Nat) : Stored :=
  if strIncludes filename "data/" then .gzipped body else .verbatim body

/-! ## Commit merge (`commitUpload`, lines 675–684)

`fsExtra.copySync(sessionUploadDir, finalDir, { overwrite: false,
errorOnExist: false })`: walk the source directory; a file whose path already
exists in the destination is skipped silently, any other file is copied. -/

/-- A directory as a finite list of `(relative path, bytes)` pairs. -/
abbrev Dir := List (String × List Nat)

/-- Lookup of a path in a directory. -/
def dirLookup (d : Dir) (p : String) : Option (List Nat) :=
  (d.find? (fun f => f.1 = p)).map (fun f => f.2)

/-- The merge of `copySync` with `overwrite: false, errorOnExist: false`:
destination files are kept as they are; source files are added only when the
destination has no file at that path. -/
def copyNoOverwrite (src dest : Dir) : Dir :=
  dest ++ src.filter (fun f => (dirLookup dest f.1).isNone)

/-! ## Theorems -/

/-- Claim C3: root-commitment validation fails whenever `payload.root`
differs from `rootHash`; under a matching `root` field, an empty `leaves`
list is accepted exactly when `rootHash` is the all-zero digest; and a
payload with a non-empty `leaves` list is accepted only if the Merkle root
recomputed from the leaves equals `rootHash`. -/
theorem validateDat_root_and_leaves (cr : List String → String)
    (hist histBusted : List String) (p : DatPayload) (rh : String) :
    (p.root ≠ rh → (validateDat cr hist histBusted p rh).1 = .error 400)
    ∧ (p.leaves = [] → p.root = rh →
        ((validateDat cr hist histBusted p rh).1 = .ok () ↔ rh = zeroRoot))
    ∧ (p.leaves ≠ [] →
        (validateDat cr hist histBusted p rh).1 = .ok () → cr p.leaves = rh) := by
  refine ⟨?_, ?_, ?_⟩
  · intro hne
    by_cases h0 : p.root = ""
    · simp [validateDat, h0]
    · simp [validateDat, h0, hne]
  · intro hleaves hroot
    subst hroot
    by_cases h0 : p.root = ""
    · have hz : ¬(p.root = zeroRoot) := by rw [h0]; decide
      simp [validateDat, h0, hleaves, hz]
      decide
    · by_cases hz : p.root = zeroRoot
      · simp [validateDat, h0, hleaves, hz]
        rfl
      · simp [validateDat, h0, hleaves, hz]
  · intro hleaves hok
    by_cases h0 : p.root = ""
    · simp [validateDat, h0] at hok
    · by_cases hroot : p.root = rh
      · by_cases hcr : cr p.leaves = rh
        · exact hcr
        · have hlen : 0 < p.leaves.length := List.length_pos.mpr hleaves
          simp [validateDat, h0, hroot, hlen, hcr] at hok
      · simp [validateDat, h0, hroot] at hok

/-- Claim C2, counterexample: the payload with an empty `leaves` list and the
all-zero root is accepted although its `rootHash` does not appear in the
(empty) root history, and no cache-busting re-fetch happens. -/
theorem validateDat_history_skipped_cex :
    (validateDat (fun _ => "") [] [] ⟨zeroRoot, []⟩ zeroRoot).1 = .ok ()
    ∧ (validateDat (fun _ => "") [] [] ⟨zeroRoot, []⟩ zeroRoot).2 = false
    ∧ ([] : List String).contains zeroRoot = false := by
  exact ⟨rfl, rfl, rfl⟩

/-- Claim C2, amended: for every accepted `.dat` payload with a *non-empty*
`leaves` list, the declared `rootHash` appears in the first-fetched root
history (no re-fetch), or the first lookup missed and the `rootHash` appears
in the once cache-bust-re-fetched history.  A payload with an empty `leaves`
list is accepted without consulting the root history at all. -/
theorem validateDat_history_amended (cr : List String → String)
    (hist histBusted : List String) (p : DatPayload) (rh : String)
    (hleaves : p.leaves ≠ [])
    (hok : (validateDat cr hist histBusted p rh).1 = .ok ()) :
    (hist.contains rh = true
      ∧ (validateDat cr hist histBusted p rh).2 = false)
    ∨ (hist.contains rh = false ∧ histBusted.contains rh = true
      ∧ (validateDat cr hist histBusted p rh).2 = true) := by
  have hlen : 0 < p.leaves.length := List.length_pos.mpr hleaves
  by_cases h0 : p.root = ""
  · simp [validateDat, h0] at hok
  · by_cases hroot : p.root = rh
    · have hne : ¬(rh = "") := fun h => h0 (hroot.trans h)
      by_cases hcr : cr p.leaves = rh
      · by_cases hh : rh ∈ hist
        · refine .inl ⟨by simpa using hh, ?_⟩
          simp [validateDat, h0, hroot, hlen, hcr, hne, hh]
        · by_cases hb : rh ∈ histBusted
          · refine .inr ⟨by simpa using hh, by simpa using hb, ?_⟩
            simp [validateDat, h0, hroot, hlen, hcr, hne, hh, hb]
          · simp [validateDat, h0, hroot, hlen, hcr, hne, hh, hb] at hok
      · simp [validateDat, h0, hroot, hlen, hcr] at hok
    · simp [validateDat, h0, hroot] at hok

/-- Claim C2, witness for the amended theorem at a concrete accepted payload
with one leaf whose recomputed root is in the first-fetched history. -/
theorem validateDat_history_amended_witness :
    ((["r"] : List String).contains "r" = true
      ∧ (validateDat (fun _ => "r") ["r"] [] ⟨"r", ["x"]⟩ "r").2 = false)
    ∨ ((["r"] : List String).contains "r" = false
      ∧ ([] : List String).contains "r" = true
      ∧ (validateDat (fun _ => "r") ["r"] [] ⟨"r", ["x"]⟩ "r").2 = true) :=
  validateDat_history_amended (fun _ => "r") ["r"] [] ⟨"r", ["x"]⟩ "r"
    (by simp) rfl

/-- A prefix occurrence is in particular an occurrence. -/
lemma containsSub_of_leadsWith (s pat : List Char)
    (h : leadsWith pat s = true) : containsSub s pat = true := by
  cases s with
  | nil => simp [containsSub, h]
  | cons c t => simp [containsSub, h]

/-- Claim C5, counterexample: the target path `foo/data/x` does not start
with `data/`, yet `uploadFile` stores the gzip compression of the body,
because the source tests `filename.includes("data/")`. -/
theorem storedFile_startsWith_cex :
    storedFile "foo/data/x" [0] = .gzipped [0]
    ∧ strBeginsWith "foo/data/x" "data/" = false := by
  exact ⟨by decide, by decide⟩

/-- Claim C5, amended: the bytes written to `session.tmpDir/<filename>` are
the gzip compression of the streamed body exactly when the target path
*contains* the substring `data/` (in particular whenever it starts with
`data/`); every other target path is stored verbatim. -/
theorem storedFile_gzip_iff_includes (filename : String) (body : List Nat) :
    (storedFile filename body = .gzipped body
      ↔ strIncludes filename "data/" = true)
    ∧ (storedFile filename body = .verbatim body
      ↔ strIncludes filename "data/" = false)
    ∧ (strBeginsWith filename "data/" = true →
        storedFile filename body = .gzipped body) := by
  refine ⟨?_, ?_, ?_⟩
  · cases h : strIncludes filename "data/" <;> simp [storedFile, h]
  · cases h : strIncludes filename "data/" <;> simp [storedFile, h]
  · intro h
    have : strIncludes filename "data/" = true :=
      containsSub_of_leadsWith filename.data "data/".data h
    simp [storedFile, this]

/-- Claim C6, counterexample: the entry stored by `generateNonce` expires
`300000` milliseconds (5 minutes) after issuance, not the claimed 10
minutes. -/
theorem generateNonce_ttl_cex :
    (((generateNonce emptyNonceStore "k" (List.range 16) 0).2 "k").map
      NonceEntry.expires) = some 300000
    ∧ (300000 : Nat) ≠ 10 * 60 * 1000 := by
  exact ⟨by decide, by decide⟩

/-- Every hex digit produced for an index below 16 is a lowercase hex
character. -/
lemma hexDigit_isHex : ∀ m, m < 16 → isHexChar (hexDigit m) = true := by decide

/-- The hex encoding of `m` bytes has `2 * m` characters. -/
lemma bytesToHex_length (bs : List Nat) :
    (bytesToHex bs).length = 2 * bs.length := by
  induction bs with
  | nil => rfl
  | cons b t ih =>
    have ih2 : (t.flatMap
        (fun b => [hexDigit (b / 16 % 16), hexDigit (b % 16)])).length
        = 2 * t.length := ih
    show ((b :: t).flatMap
        (fun b => [hexDigit (b / 16 % 16), hexDigit (b % 16)])).length
      = 2 * (b :: t).length
    rw [List.flatMap_cons, List.length_append, ih2]
    simp only [List.length_cons, List.length_nil]
    omega

/-- Claim C6, amended: nonce issuance hex-encodes the 16 random bytes to a
32-character lowercase hex string, returns it, and stores the entry with a
fixed time-to-live of **5 minutes** (the source's
`Date.now() + 5 * 60 * 1000`), not 10 minutes. -/
theorem generateNonce_spec (st : NonceStore) (k : String) (bs : List Nat)
    (now : Nat) (hlen : bs.length = 16) :
    ((generateNonce st k bs now).1).length = 32
    ∧ (∀ c ∈ ((generateNonce st k bs now).1).data, isHexChar c = true)
    ∧ (generateNonce st k bs now).2 k
      = some ⟨(generateNonce st k bs now).1, now + 5 * 60 * 1000⟩ := by
  refine ⟨?_, ?_, ?_⟩
  · show (bytesToHex bs).length = 32
    rw [bytesToHex_length, hlen]
  · intro c hc
    have hc2 : c ∈ bs.flatMap
        (fun b => [hexDigit (b / 16 % 16), hexDigit (b % 16)]) := hc
    rcases List.mem_flatMap.mp hc2 with ⟨b, _, hb⟩
    simp only [List.mem_cons, List.not_mem_nil, or_false] at hb
    rcases hb with h | h <;>
      exact h ▸ hexDigit_isHex _ (Nat.mod_lt _ (by norm_num))
  · show (fun x => if x = k then some ⟨bytesToHex bs, now + nonceTTLms⟩
        else st x) k = _
    simp [nonceTTLms]
    rfl

/-- Claim C6, witness for the amended theorem at 16 concrete bytes. -/
theorem generateNonce_spec_witness :
    ((generateNonce emptyNonceStore "k" (List.range 16) 0).1).length = 32
    ∧ (∀ c ∈ ((generateNonce emptyNonceStore "k" (List.range 16) 0).1).data,
        isHexChar c = true)
    ∧ (generateNonce emptyNonceStore "k" (List.range 16) 0).2 "k"
      = some ⟨(generateNonce emptyNonceStore "k" (List.range 16) 0).1,
          0 + 5 * 60 * 1000⟩ :=
  generateNonce_spec emptyNonceStore "k" (List.range 16) 0 (by decide)

/-- Claim C4: when a `data/` upload fails the per-file Merkle verification,
the thrown `HttpError(400)` is swallowed by the Busboy `error` listener and
the HTTP response is 500, not the claimed 400 (the session *is* destroyed in
the returned-`false` branch); and when `merkleIntegrityCheck` throws (here:
the observed digest does not match the `dataPath`), the response is 500 and
the session is *not* destroyed. -/
theorem uploadFile_integrity_fail_is_500 :
    postStreamResult "data/aa/bb/cc" true (.ok false) = (500, true)
    ∧ postStreamResult "data/aa/bb/cc" true
        (merkleIntegrityCheck [("k", ⟨"h", "aabbcc"⟩)] "data/aa/bb/cc"
          "ffff" true)
      = (500, false)
    ∧ (500 : Nat) ≠ 400 := by
  exact ⟨by decide, by decide, by decide⟩

/-- Claim C8: the owner check consults the cache first and calls the
external module on a miss, but the entry it stores survives far beyond 3
minutes: a repeat check 10 minutes later still answers from the cache
without calling the external module, because the source passes the
millisecond count `3 * 60 * 1000` as node-cache's `stdTTL`, which is in
seconds. -/
theorem ownerCache_expiry_exceeds_three_minutes :
    (isOwnerCheck emptyOwnerCache "pk" "sid" true 0).calledExternal = true
    ∧ (isOwnerCheck (isOwnerCheck emptyOwnerCache "pk" "sid" true 0).cache
        "pk" "sid" false 600000).allowed = true
    ∧ (isOwnerCheck (isOwnerCheck emptyOwnerCache "pk" "sid" true 0).cache
        "pk" "sid" false 600000).calledExternal = false
    ∧ 600000 > 3 * 60 * 1000 := by
  refine ⟨rfl, ?_, ?_, by decide⟩ <;> decide

/-- Claim C9: the commit merge (`copySync` with `overwrite: false`,
`errorOnExist: false`) is non-destructive: every file present in the store
directory before the commit is still present with identical content after
it. -/
theorem commit_preserves_existing (src dest : Dir) (p : String)
    (c : List Nat) (h : dirLookup dest p = some c) :
    dirLookup (copyNoOverwrite src dest) p = some c := by
  unfold dirLookup at h ⊢
  unfold copyNoOverwrite
  rcases hf : dest.find? (fun f => f.1 = p) with _ | f
  · rw [hf] at h; cases h
  · rw [hf] at h
    rw [List.find?_append, hf]
    exact h

/-- Claim C9, witness: a commit over a store that already holds `a` keeps
the old content of `a`. -/
theorem commit_preserves_existing_witness :
    dirLookup (copyNoOverwrite [("a", [1])] [("a", [2]), ("b", [3])]) "a"
      = some [2] :=
  commit_preserves_existing [("a", [1])] [("a", [2]), ("b", [3])] "a" [2]
    (by decide)

/-- Claim C10: a second issuance for the same key replaces the stored entry:
the first nonce no longer validates (when the two nonces differ), and a
candidate validates afterwards exactly when it is the second nonce and the
second entry has not expired. -/
theorem reissue_replaces (st : NonceStore) (k : String) (bs1 bs2 : List Nat)
    (t1 t2 : Nat) :
    (bytesToHex bs1 ≠ bytesToHex bs2 → ∀ t,
      (validateNonce (generateNonce (generateNonce st k bs1 t1).2 k bs2 t2).2
        k (bytesToHex bs1) t).1 = false)
    ∧ (∀ cand t,
      ((validateNonce (generateNonce (generateNonce st k bs1 t1).2 k bs2 t2).2
        k cand t).1 = true ↔ cand = bytesToHex bs2 ∧ t < t2 + nonceTTLms)) := by
  constructor
  · intro hne t
    simp [generateNonce, validateNonce, hne]
  · intro cand t
    by_cases hc : cand = bytesToHex bs2 ∧ t < t2 + nonceTTLms
    · simp [generateNonce, validateNonce, hc]
    · simp [generateNonce, validateNonce, hc]

/-- Claim C1: the guard sequence of PUT
`/upload/{storeId}/{sessionId}/{filename}` runs in the claimed order with
the claimed statuses: missing header ⇒ 400; else failed nonce validation for
`"<storeId>_<sessionId>_<filename>"` ⇒ 401; else failed external signature
verification ⇒ 401; else unknown session ⇒ 404; else owner check denies
write access ⇒ 403. -/
theorem uploadFile_ordered_checks (ctx : PutCtx) :
    ((hdrFalsy ctx.headers.keyOwnershipSig || hdrFalsy ctx.headers.publicKey
        || hdrFalsy ctx.headers.nonce) = true →
      uploadChecks ctx = .error 400)
    ∧ ((hdrFalsy ctx.headers.keyOwnershipSig || hdrFalsy ctx.headers.publicKey
        || hdrFalsy ctx.headers.nonce) = false →
      (validateNonce ctx.nonces
          (ctx.storeId ++ "_" ++ ctx.sessionId ++ "_" ++ ctx.filename)
          (hdrVal ctx.headers.nonce) ctx.now).1 = false →
      uploadChecks ctx = .error 401)
    ∧ ((hdrFalsy ctx.headers.keyOwnershipSig || hdrFalsy ctx.headers.publicKey
        || hdrFalsy ctx.headers.nonce) = false →
      (validateNonce ctx.nonces
          (ctx.storeId ++ "_" ++ ctx.sessionId ++ "_" ++ ctx.filename)
          (hdrVal ctx.headers.nonce) ctx.now).1 = true →
      ctx.verifySig (hdrVal ctx.headers.nonce)
          (hdrVal ctx.headers.keyOwnershipSig)
          (hdrVal ctx.headers.publicKey) = false →
      uploadChecks ctx = .error 401)
    ∧ ((hdrFalsy ctx.headers.keyOwnershipSig || hdrFalsy ctx.headers.publicKey
        || hdrFalsy ctx.headers.nonce) = false →
      (validateNonce ctx.nonces
          (ctx.storeId ++ "_" ++ ctx.sessionId ++ "_" ++ ctx.filename)
          (hdrVal ctx.headers.nonce) ctx.now).1 = true →
      ctx.verifySig (hdrVal ctx.headers.nonce)
          (hdrVal ctx.headers.keyOwnershipSig)
          (hdrVal ctx.headers.publicKey) = true →
      ctx.sessions.contains ctx.sessionId = false →
      uploadChecks ctx = .error 404)
    ∧ ((hdrFalsy ctx.headers.keyOwnershipSig || hdrFalsy ctx.headers.publicKey
        || hdrFalsy ctx.headers.nonce) = false →
      (validateNonce ctx.nonces
          (ctx.storeId ++ "_" ++ ctx.sessionId ++ "_" ++ ctx.filename)
          (hdrVal ctx.headers.nonce) ctx.now).1 = true →
      ctx.verifySig (hdrVal ctx.headers.nonce)
          (hdrVal ctx.headers.keyOwnershipSig)
          (hdrVal ctx.headers.publicKey) = true →
      ctx.sessions.contains ctx.sessionId = true →
      (isOwnerCheck ctx.ownerCache (hdrVal ctx.headers.publicKey) ctx.storeId
          ctx.externalOwner ctx.now).allowed = false →
      uploadChecks ctx = .error 403) := by
  refine ⟨?_, ?_, ?_, ?_, ?_⟩
  · intro h1
    simp [uploadChecks, h1]
  · intro h1 h2
    simp only [Bool.or_eq_false_iff] at h1
    simp [uploadChecks, h1.1.1, h1.1.2, h1.2, h2]
  · intro h1 h2 h3
    simp only [Bool.or_eq_false_iff] at h1
    simp [uploadChecks, h1.1.1, h1.1.2, h1.2, h2, h3]
  · intro h1 h2 h3 h4
    simp only [Bool.or_eq_false_iff] at h1
    have h4m : ctx.sessionId ∉ ctx.sessions := by simpa using h4
    simp [uploadChecks, h1.1.1, h1.1.2, h1.2, h2, h3, h4m]
  · intro h1 h2 h3 h4 h5
    simp only [Bool.or_eq_false_iff] at h1
    have h4m : ctx.sessionId ∈ ctx.sessions := by simpa using h4
    simp [uploadChecks, h1.1.1, h1.1.2, h1.2, h2, h3, h4m, h5]

/-- A concrete PUT context whose five guards pass down to the owner check,
which denies access. -/
def deniedPutCtx : PutCtx where
  storeId := "s"
  sessionId := "id"
  filename := "f"
  headers := ⟨some "sig", some "pk", some "n"⟩
  nonces := fun x => if x = "s_id_f" then some ⟨"n", 10⟩ else none
  verifySig := fun _ _ _ => true
  sessions := ["id"]
  ownerCache := emptyOwnerCache
  externalOwner := false
  now := 0

/-- Claim C1, witness: on a concrete request that passes headers, nonce,
signature and session lookup but whose owner check denies write access, the
response is 403. -/
theorem uploadFile_ordered_checks_witness :
    uploadChecks deniedPutCtx = .error 403 :=
  (uploadFile_ordered_checks deniedPutCtx).2.2.2.2 (by decide) (by decide)
    rfl rfl (by decide)

/-- Trace invariant behind the single-use property: the number of successful
validations of `(key, n)` is bounded by the number of issuances storing `n`
for `key` plus one if the store already holds that entry. -/
lemma countTrue_le (k n : String) (ops : List NonceOp) :
    ∀ st : NonceStore,
      countTrueValidates st k n ops
        ≤ countIssues k n ops + holdsNonce st k n := by
  induction ops with
  | nil => intro st; simp [countTrueValidates, countIssues]
  | cons op rest ih =>
    intro st
    cases op with
    | issue k2 h2 t =>
      have hih := ih (applyNonceOp st (.issue k2 h2 t))
      have hfalse : isTrueValidate st k n (.issue k2 h2 t) = false := rfl
      have hholds : holdsNonce (applyNonceOp st (.issue k2 h2 t)) k n
          ≤ (if k2 = k ∧ h2 = n then 1 else 0) + holdsNonce st k n := by
        by_cases hk : k = k2
        · by_cases hh : h2 = n
          · simp [applyNonceOp, holdsNonce, hk, hh]
          · simp [applyNonceOp, holdsNonce, hk, hh]
        · have hk2 : ¬(k2 = k) := fun h => hk h.symm
          simp [applyNonceOp, holdsNonce, hk, hk2]
      simp only [countTrueValidates, countIssues, hfalse, Bool.false_eq_true,
        if_false] at *
      omega
    | validate k2 c t =>
      rcases hres : st k2 with _ | e
      · have h1 : applyNonceOp st (.validate k2 c t) = st := by
          simp [applyNonceOp, validateNonce, hres]
        have h2 : isTrueValidate st k n (.validate k2 c t) = false := by
          simp [isTrueValidate, validateNonce, hres]
        have hih := ih st
        simp only [countTrueValidates, countIssues, h1, h2,
          Bool.false_eq_true, if_false]
        omega
      · by_cases hcond : c = e.nonce ∧ t < e.expires
        · have hval : validateNonce st k2 c t
              = (true, fun x => if x = k2 then none else st x) := by
            simp [validateNonce, hres, hcond]
          have hst : applyNonceOp st (.validate k2 c t)
              = fun x => if x = k2 then none else st x := by
            simp [applyNonceOp, hval]
          have hih := ih (fun x => if x = k2 then none else st x)
          by_cases hkn : k2 = k ∧ c = n
          · have hv1 : (validateNonce st k n t).1 = true := by
              rw [← hkn.1, ← hkn.2, hval]
            have htrue : isTrueValidate st k n (.validate k2 c t) = true := by
              simp [isTrueValidate, hkn.1, hkn.2, hv1]
            have hresk : st k = some e := by rw [← hkn.1]; exact hres
            have hhold1 : holdsNonce st k n = 1 := by
              simp [holdsNonce, hresk, hcond.1.symm.trans hkn.2]
            have hhold0 :
                holdsNonce (fun x => if x = k2 then none else st x) k n
                  = 0 := by
              simp [holdsNonce, hkn.1]
            simp only [countTrueValidates, countIssues, htrue, if_true, hst]
            omega
          · have hfalse : isTrueValidate st k n (.validate k2 c t)
                = false := by
              simp only [isTrueValidate, Bool.and_eq_false_iff]
              rcases not_and_or.mp hkn with h | h
              · exact .inl (.inl (by simpa using h))
              · exact .inl (.inr (by simpa using h))
            have hmono :
                holdsNonce (fun x => if x = k2 then none else st x) k n
                  ≤ holdsNonce st k n := by
              by_cases hk : k = k2
              · simp [holdsNonce, hk]
              · simp [holdsNonce, hk]
            simp only [countTrueValidates, countIssues, hfalse,
              Bool.false_eq_true, if_false, hst]
            omega
        · have hval : validateNonce st k2 c t = (false, st) := by
            simp [validateNonce, hres, hcond]
          have h1 : applyNonceOp st (.validate k2 c t) = st := by
            simp [applyNonceOp, hval]
          have h2 : isTrueValidate st k n (.validate k2 c t) = false := by
            simp [isTrueValidate, hval]
          have hih := ih st
          simp only [countTrueValidates, countIssues, h1, h2,
            Bool.false_eq_true, if_false]
          omega

/-- Claim C7: starting from the empty store, when at most one issuance in
the whole trace stores `n` for `k`, at most one `validateNonce(k, n)` call
returns true; and a successful validation removes the stored entry for its
key. -/
theorem nonce_single_use (k n : String) (ops : List NonceOp)
    (h : countIssues k n ops ≤ 1) :
    countTrueValidates emptyNonceStore k n ops ≤ 1
    ∧ ∀ st cand now, (validateNonce st k cand now).1 = true →
        (validateNonce st k cand now).2 k = none := by
  constructor
  · have hle := countTrue_le k n ops emptyNonceStore
    have h0 : holdsNonce emptyNonceStore k n = 0 := rfl
    omega
  · intro st cand now hv
    rcases hres : st k with _ | e
    · simp [validateNonce, hres] at hv
    · by_cases hcond : cand = e.nonce ∧ now < e.expires
      · simp [validateNonce, hres, hcond]
      · simp [validateNonce, hres, hcond] at hv

/-- Claim C7, witness: a trace that issues once for `k` and validates the
same nonce twice sees at most one successful validation. -/
theorem nonce_single_use_witness :
    countTrueValidates emptyNonceStore "k" "n"
        [.issue "k" "n" 0, .validate "k" "n" 1, .validate "k" "n" 2] ≤ 1
    ∧ ∀ st cand now, (validateNonce st "k" cand now).1 = true →
        (validateNonce st "k" cand now).2 "k" = none :=
  nonce_single_use "k" "n"
    [.issue "k" "n" 0, .validate "k" "n" 1, .validate "k" "n" 2] (by decide)

end Dig
